import Mathlib

/-!
Verification development for the SPX analysis pipeline (`src/app.py`).

The Python source is shallowly embedded: pandas `DataFrame`s carrying OHLCV
bars become lists of `Bar` records; the close-price column becomes a
`List ℚ`; machine floats become exact rationals (the claims under study are
about control flow and exact algebraic identities, not rounding); the Yahoo
Finance provider becomes an oracle function from a requested calendar day to
the list of bars it serves; Streamlit UI effects (`st.info`, `st.warning`)
are modelled as explicit components of the returned value; a Python
exception caught inside a loader (which the source converts to `None`) and
an empty frame are both modelled as the empty list, exactly as the callers
of those loaders treat them.

Calendar days are modelled as integers (the source steps dates by
`timedelta(days=1)`, which is exactly integer decrement on day numbers).
-/

namespace SpxAnalysis

/-- One OHLCV bar. `day` is the calendar day of the bar's timestamp
(`index.date` in the source); bars inside one day are kept in index order
by the enclosing list. -/
structure Bar where
  day : Int
  Open : ℚ
  High : ℚ
  Low : ℚ
  Close : ℚ
  Volume : ℚ
  deriving DecidableEq

instance : Inhabited Bar := ⟨⟨0, 0, 0, 0, 0, 0⟩⟩

/-- One row of the resampled daily frame (`daily_data` in
`create_daily_summary_table`). -/
structure DailyBar where
  day : Int
  Open : ℚ
  High : ℚ
  Low : ℚ
  Close : ℚ
  Volume : ℚ
  deriving DecidableEq

instance : Inhabited DailyBar := ⟨⟨0, 0, 0, 0, 0, 0⟩⟩

/-- The three trend arrows the source writes: `🟢🔼` (up), `🔴🔽` (down),
`⚪➡️` (flat). -/
inductive Trend where
  | up
  | down
  | flat
  deriving DecidableEq

instance : Inhabited Trend := ⟨Trend.flat⟩

/-- The classification `'🟢🔼' if x > 0 else '🔴🔽' if x < 0 else '⚪➡️'`
applied to an actual (non-NaN) number. -/
def trendOfRat (x : ℚ) : Trend :=
  if x > 0 then Trend.up else if x < 0 then Trend.down else Trend.flat

/-- The same lambda applied to a possibly-missing value: pandas `pct_change`
yields NaN on the first row, and NaN fails both `x > 0` and `x < 0`, so the
lambda returns the flat arrow.  A missing value is modelled as `none`. -/
def trendOfChange : Option ℚ → Trend
  | none => Trend.flat
  | some x => trendOfRat x

/-- Aggregation of one day's group of bars, as in
`data.resample('D').agg({'Open': 'first', 'High': 'max', 'Low': 'min',
'Close': 'last', 'Volume': 'sum'})`. Only applied to nonempty groups
(`dropna` removes the all-NaN rows that empty days would produce). -/
def aggDay (d : Int) (g : List Bar) : DailyBar where
  day := d
  Open := (g.headD default).Open
  High := (g.map (·.High)).foldl max ((g.headD default).High)
  Low := (g.map (·.Low)).foldl min ((g.headD default).Low)
  Close := (g.getLastD default).Close
  Volume := (g.map (·.Volume)).sum

/-- `data.resample('D').agg(...).dropna()` from `create_daily_summary_table`:
one aggregated row per calendar day that actually has samples, in order of
appearance (the input series is chronologically indexed, so the distinct
days appear in chronological order). -/
def daily_resample (bars : List Bar) : List DailyBar :=
  ((bars.map (·.day)).dedup).map (fun d => aggDay d (bars.filter (fun b => b.day = d)))

/-- Embeds `load_intraday_data(date_str, interval)`: fetch the provider's
bars for the requested day, then `data[data.index.date == start_date.date()]`.
A provider exception (caught, `None` returned) and an empty frame are both
the empty list.  The trailing `convert_to_paris_time` call changes only the
index timezone, which does not affect the close prices or the bar count
consumed by the summary builder, so it is the identity in this model (the
timezone behaviour itself is modelled separately by `convert_to_paris_time`
below). -/
def load_intraday_data (oracle : Int → List Bar) (d : Int) : List Bar :=
  (oracle d).filter (fun b => b.day = d)

/-- The backward-stepping loop of `load_intraday_data_robust`: `k` is the
current number of days stepped back from the original date, `r` the number
of attempts still allowed.  The source makes the initial attempt (`k = 0`)
and then `for days_back in range(1, 8)`, i.e. eight attempts in all. -/
def robustGo (oracle : Int → List Bar) (orig : Int) (k : Nat) : Nat → Option (List Bar × Int)
  | 0 => none
  | r + 1 =>
    let data := load_intraday_data oracle (orig - k)
    if data = [] then robustGo oracle orig (k + 1) r
    else some (data, orig - k)

/-- Embeds `load_intraday_data_robust(date_str, interval)`.  The source
returns the bar series and, when it had to step back, announces the
substituted date through an `st.info` message; the embedding models that
report as the second component of the result (when the first attempt
succeeds the date actually used is the requested date itself). `none` is
the source's `return None` when all eight attempts are empty. -/
def load_intraday_data_robust (oracle : Int → List Bar) (d : Int) : Option (List Bar × Int) :=
  robustGo oracle d 0 8

/-- `intraday_data.tail(5)`: the last five rows (all rows when fewer). -/
def lastFive (l : List Bar) : List Bar := l.drop (l.length - 5)

/-- The per-day body of the summary loop, given the intraday series already
loaded for that day: on a nonempty series whose last-5 window has at least
two samples, the change in points over the window
(`end_price - start_price`) and its trend; otherwise the initialized
defaults `(0.0, flat)` are kept. -/
def last5Stats (intraday : List Bar) : ℚ × Trend :=
  if intraday = [] then (0, Trend.flat)
  else
    let w := lastFive intraday
    if 2 ≤ w.length then
      let delta := (w.getLastD default).Close - (w.headD default).Close
      (delta, trendOfRat delta)
    else (0, Trend.flat)

/-- One row of the final summary table.  The source formats prices and
changes into strings for display; the embedding keeps the numeric values
(the formatting is presentation glue). -/
structure SummaryRow where
  day : Int
  Open : ℚ
  Close : ℚ
  dailyChange : Option ℚ
  dailyTrend : Trend
  last5Change : ℚ
  last5Trend : Trend
  deriving DecidableEq

instance : Inhabited SummaryRow :=
  ⟨⟨0, 0, 0, none, Trend.flat, 0, Trend.flat⟩⟩

/-- `daily_data['Close'].pct_change() * 100` at row `i`: NaN (`none`) on the
first row, otherwise `(close_i - close_{i-1}) / close_{i-1} * 100`. -/
def pctChange100 (daily : List DailyBar) (i : Nat) : Option ℚ :=
  if i = 0 then none
  else
    let prev := (daily.getD (i - 1) default).Close
    some (((daily.getD i default).Close - prev) / prev * 100)

/-- Row `i` of the summary table before the `tail(30)` restriction.  The
last-5-minute fields start at the initialized defaults `(0.0, '⚪➡️')` and
are overwritten by the intraday loop only for the most recent 30 daily rows
(`daily_data.tail(30)`), i.e. for `daily.length - 30 ≤ i`. -/
def summaryRowAt (oracle : Int → List Bar) (daily : List DailyBar) (i : Nat) : SummaryRow :=
  let d := daily.getD i default
  let change := pctChange100 daily i
  let stats :=
    if daily.length - 30 ≤ i then last5Stats (load_intraday_data oracle d.day)
    else ((0 : ℚ), Trend.flat)
  { day := d.day
    Open := d.Open
    Close := d.Close
    dailyChange := change
    dailyTrend := trendOfChange change
    last5Change := stats.1
    last5Trend := stats.2 }

/-- Embeds `create_daily_summary_table(data)`: resample to daily rows,
attach day-over-day change and trend, fill the last-5-minute fields for the
most recent 30 days from per-day intraday loads (each day's load is
`load_intraday_data`, its failure leaving the defaults in place), and emit
the rows of `daily_data.tail(30)` in chronological order. -/
def create_daily_summary_table (oracle : Int → List Bar) (bars : List Bar) : List SummaryRow :=
  let daily := daily_resample bars
  ((List.range daily.length).map (summaryRowAt oracle daily)).drop (daily.length - 30)

/-- One incremental step of pandas `Series.ewm(span=...).mean()` with the
default `adjust=True`: carrying the running weighted numerator and the
running weight sum, each output is their ratio. -/
def ewmAux (β : ℚ) : ℚ → ℚ → List ℚ → List ℚ
  | _, _, [] => []
  | num, den, x :: xs =>
    (β * num + x) / (β * den + 1) :: ewmAux β (β * num + x) (β * den + 1) xs

/-- Embeds `series.ewm(span=span).mean()` as the source calls it (pandas
defaults `adjust=True`, `min_periods=0`): with `α = 2/(span+1)` and
`β = 1 - α`, the value at position `t` is
`(Σ_{i≤t} β^i · x_{t-i}) / (Σ_{i≤t} β^i)`. -/
def ewmMean (span : Nat) (xs : List ℚ) : List ℚ :=
  ewmAux (1 - 2 / ((span : ℚ) + 1)) 0 0 xs

/-- Follows the spec's words (§4.4 EMA), for comparison with the source's
`ewmMean`: seed from the first close, then recurse with
`y_t = α·x_t + (1−α)·y_{t−1}`, `α = 2/(span+1)`. -/
def emaRecSpecAux (α : ℚ) (y : ℚ) : List ℚ → List ℚ
  | [] => []
  | x :: xs => (α * x + (1 - α) * y) :: emaRecSpecAux α (α * x + (1 - α) * y) xs

/-- Follows the spec's words (§4.4 EMA): the recursively-defined EMA the
claim describes, to be compared with the source's `ewmMean`. -/
def emaRecSpec (span : Nat) (xs : List ℚ) : List ℚ :=
  match xs with
  | [] => []
  | x :: rest => x :: emaRecSpecAux (2 / ((span : ℚ) + 1)) x rest

/-- A pandas `DataFrame` as the indicator functions touch it: a timestamp
index and a mutable mapping from column names to numeric series.  Writing
`data[name] = series` updates the mapping in place; in state-passing form
the updated frame is returned. -/
structure DataFrame where
  index : List Int
  cols : String → Option (List ℚ)

/-- `data[name] = v` on a frame. -/
def setCol (df : DataFrame) (name : String) (v : List ℚ) : DataFrame :=
  { df with cols := fun n => if n = name then some v else df.cols n }

/-- `data['Close']` (the claims only exercise frames that carry a close
column; a missing column, which would raise a `KeyError` in the source,
defaults to the empty series here). -/
def closeOf (df : DataFrame) : List ℚ :=
  (df.cols "Close").getD []

/-- Elementwise difference of two aligned pandas series (`s1 - s2`). -/
def seriesSub (a b : List ℚ) : List ℚ :=
  List.zipWith (fun x y => x - y) a b

/-- Embeds `calculate_macd(data, fast, slow, signal)`: the MACD column is
the elementwise difference of the fast and slow exponential means of the
close column, the signal column is the exponential mean of the MACD column
just written, and the histogram column is their elementwise difference; all
three are written into the frame, which is then returned. -/
def calculate_macd (df : DataFrame) (fast slow signal : Nat) : DataFrame :=
  let ema_fast := ewmMean fast (closeOf df)
  let ema_slow := ewmMean slow (closeOf df)
  let df1 := setCol df "MACD" (seriesSub ema_fast ema_slow)
  let df2 := setCol df1 "MACD_Signal" (ewmMean signal ((df1.cols "MACD").getD []))
  setCol df2 "MACD_Histogram"
    (seriesSub ((df2.cols "MACD").getD []) ((df2.cols "MACD_Signal").getD []))

/-- Embeds `calculate_ema(data, period)`: writes the exponential mean of the
close column into the column named `EMA_{period}` and returns the frame. -/
def calculate_ema (df : DataFrame) (period : Nat) : DataFrame :=
  setCol df ("EMA_" ++ toString period) (ewmMean period (closeOf df))

/-- A bar series as the timezone normalizer sees it: the index may be
timezone-naive (`tz = none`) or carry a zone.  A zone is modelled as its
fixed UTC offset; `times` are the wall-clock readings of the index in the
carried zone (or the raw naive readings).  `rows` is the OHLCV payload,
which the normalizer never touches. -/
structure TzSeries where
  tz : Option Int
  times : List Int
  rows : List ℚ
  deriving DecidableEq

/-- `data.index.tz_localize('UTC')` on a naive index: the readings are now
interpreted as UTC wall clock (offset 0); the readings themselves do not
change. -/
def tz_localize_utc (s : TzSeries) : TzSeries :=
  { s with tz := some 0 }

/-- `data.index.tz_convert(zone)`: re-express every reading, currently in
the zone of offset `s.tz`, as a reading in the zone of offset `off`
(the underlying instants are preserved: `t - old_offset + new_offset`). -/
def tz_convert (s : TzSeries) (off : Int) : TzSeries :=
  { s with tz := some off, times := s.times.map (fun t => t - s.tz.getD 0 + off) }

/-- Embeds `convert_to_paris_time(data)`.  `resolveParis` models
`pytz.timezone('Europe/Paris')`: `some off` when the zone resolves (to the
offset in force), `none` when it raises.  The Boolean result models the
`st.warning` emitted by the exception handler, which returns the input
unchanged.  An empty frame is returned unchanged before anything else
happens (`if data is None or data.empty`). -/
def convert_to_paris_time (resolveParis : Option Int) (s : TzSeries) : TzSeries × Bool :=
  if s.rows = [] then (s, false)
  else
    match resolveParis with
    | none => (s, true)
    | some off =>
      let s1 := if s.tz = none then tz_localize_utc s else s
      (tz_convert s1 off, false)

/-- Per-step close-price deltas: entry `j` is `x_{j+1} - x_j`. -/
def priceDeltas (xs : List ℚ) : List ℚ :=
  (xs.zip xs.tail).map (fun p => p.2 - p.1)

/-- Modelled from the spec: the rolling mean over the last `window` deltas
before position `t` of the positive deltas (the "gain"). -/
def avgGain (window : Nat) (xs : List ℚ) (t : Nat) : ℚ :=
  (((((priceDeltas xs).take t).drop (t - window)).map (fun d => max d 0)).sum) / (window : ℚ)

/-- Modelled from the spec: the rolling mean over the last `window` deltas
before position `t` of the magnitudes of the negative deltas (the
"loss"). -/
def avgLoss (window : Nat) (xs : List ℚ) (t : Nat) : ℚ :=
  (((((priceDeltas xs).take t).drop (t - window)).map (fun d => max (-d) 0)).sum) / (window : ℚ)

/-- Modelled from the spec: the repository source under `src/` contains no
RSI implementation (the spec's Indicator Engine §4.4 lists it); this
follows the spec's words: per-step price deltas, separate rolling means
over `window` of the positive deltas ("gain") and of the magnitudes of the
negative deltas ("loss"), RS = gain/loss, RSI = 100 − 100/(1+RS), with the
`loss = 0` and `gain > 0` case resolving to 100, and no value at positions
with fewer than `window` deltas. -/
def rsiAt (window : Nat) (xs : List ℚ) (t : Nat) : Option ℚ :=
  if window ≤ t then
    if avgLoss window xs t = 0 then (if avgGain window xs t > 0 then some 100 else none)
    else some (100 - 100 / (1 + avgGain window xs t / avgLoss window xs t))
  else none

/-- Modelled from the spec: the RSI series aligned to the price series,
one (possibly absent) value per input position. -/
def rsi (window : Nat) (xs : List ℚ) : List (Option ℚ) :=
  (List.range xs.length).map (rsiAt window xs)

/-- Follows the spec's words (§4.5 step 5), for comparison with the
source's `summaryRowAt`: the same per-day computation but obtaining the
day's bars through the Fallback Retriever `load_intraday_data_robust`. -/
def summaryRowAtClaim (oracle : Int → List Bar) (daily : List DailyBar) (i : Nat) : SummaryRow :=
  let d := daily.getD i default
  let change := pctChange100 daily i
  let stats :=
    if daily.length - 30 ≤ i then
      match load_intraday_data_robust oracle d.day with
      | none => ((0 : ℚ), Trend.flat)
      | some (s, _) => last5Stats s
    else ((0 : ℚ), Trend.flat)
  { day := d.day
    Open := d.Open
    Close := d.Close
    dailyChange := change
    dailyTrend := trendOfChange change
    last5Change := stats.1
    last5Trend := stats.2 }

/-- Follows the spec's words: the summary builder as the claim describes
it, with each day's intraday bars fetched through the Fallback Retriever. -/
def create_daily_summary_table_claim (oracle : Int → List Bar) (bars : List Bar) : List SummaryRow :=
  let daily := daily_resample bars
  ((List.range daily.length).map (summaryRowAtClaim oracle daily)).drop (daily.length - 30)

/-! ### Concrete instances used by counterexamples and witnesses -/

/-- A one-minute bar on day `d` closing at `c`. -/
def mkBar (d : Int) (c : ℚ) : Bar := ⟨d, c, c, c, c, 1⟩

/-- A provider with two intraday bars on day 0 (closes 10 and 13) and no
data on any other day. -/
def oracleDay0 : Int → List Bar := fun d => if d = 0 then [mkBar 0 10, mkBar 0 13] else []

/-- A two-day input series: one bar on day 0 (close 10), one on day 1 (close 20). -/
def barsTwoDays : List Bar := [mkBar 0 10, mkBar 1 20]

/-- A one-day input series. -/
def barsOneDay : List Bar := [mkBar 0 10]

/-- The summary row the builder produces for day 0 of `barsTwoDays` under
`oracleDay0`. -/
def rowDay0 : SummaryRow := ⟨0, 10, 10, none, Trend.flat, 3, Trend.up⟩

/-- The summary row the builder produces for day 1 of `barsTwoDays` under
`oracleDay0` (its intraday load is empty, so the last-5 fields keep their
defaults). -/
def rowDay1 : SummaryRow := ⟨1, 20, 20, some 100, Trend.up, 0, Trend.flat⟩

/-! ### The summary builder's rows -/

theorem length_create_daily_summary_table (oracle : Int → List Bar) (bars : List Bar) :
    (create_daily_summary_table oracle bars).length = min (daily_resample bars).length 30 := by
  unfold create_daily_summary_table
  simp only [List.length_drop, List.length_map, List.length_range]
  omega

theorem create_daily_summary_table_get?_eq (oracle : Int → List Bar) (bars : List Bar)
    (i : Nat) (row : SummaryRow)
    (h : (create_daily_summary_table oracle bars).get? i = some row) :
    (daily_resample bars).length - 30 + i < (daily_resample bars).length ∧
    row = summaryRowAt oracle (daily_resample bars) ((daily_resample bars).length - 30 + i) := by
  unfold create_daily_summary_table at h
  rw [List.get?_drop, List.get?_map] at h
  by_cases hj : (daily_resample bars).length - 30 + i < (daily_resample bars).length
  · rw [List.get?_range hj] at h
    simp only [Option.map_some'] at h
    exact ⟨hj, (Option.some.injEq _ _ ▸ h).symm⟩
  · rw [List.get?_eq_none.mpr (by simp only [List.length_range]; omega)] at h
    simp at h

theorem summaryRowAt_day (oracle : Int → List Bar) (daily : List DailyBar) (j : Nat) :
    (summaryRowAt oracle daily j).day = (daily.getD j default).day := rfl

theorem summaryRowAt_last5 (oracle : Int → List Bar) (daily : List DailyBar) (j : Nat)
    (hj : daily.length - 30 ≤ j) :
    ((summaryRowAt oracle daily j).last5Change, (summaryRowAt oracle daily j).last5Trend)
      = last5Stats (load_intraday_data oracle (summaryRowAt oracle daily j).day) := by
  simp only [summaryRowAt, if_pos hj, summaryRowAt_day]

theorem summaryRowAt_change (oracle : Int → List Bar) (daily : List DailyBar) (j : Nat) :
    (summaryRowAt oracle daily j).dailyChange = pctChange100 daily j ∧
    (summaryRowAt oracle daily j).dailyTrend = trendOfChange (pctChange100 daily j) := by
  constructor <;> rfl

/-- Claim C1: in the daily summary builder, every day of the emitted table
(the most recent 30 resampled days) whose intraday retrieval is empty, or
whose last-5 window holds fewer than two samples, keeps the neutral
defaults — last-5-minute delta exactly `0.0` and flat trend; a day whose
retrieval succeeds keeps its computed delta and matching trend; and the
table is always the full `tail(30)` of the resampled series, so a per-day
failure never aborts the whole build. -/
theorem daily_summary_per_day_degradation (oracle : Int → List Bar) (bars : List Bar)
    (i : Nat) (row : SummaryRow)
    (h : (create_daily_summary_table oracle bars).get? i = some row) :
    (create_daily_summary_table oracle bars).length = min (daily_resample bars).length 30 ∧
    (load_intraday_data oracle row.day = [] ∨
        (lastFive (load_intraday_data oracle row.day)).length < 2 →
      row.last5Change = 0 ∧ row.last5Trend = Trend.flat) ∧
    (load_intraday_data oracle row.day ≠ [] →
      2 ≤ (lastFive (load_intraday_data oracle row.day)).length →
      row.last5Change =
          ((lastFive (load_intraday_data oracle row.day)).getLastD default).Close -
            ((lastFive (load_intraday_data oracle row.day)).headD default).Close ∧
        row.last5Trend = trendOfRat row.last5Change) := by
  obtain ⟨hj, hrow⟩ := create_daily_summary_table_get?_eq oracle bars i row h
  have h5 := summaryRowAt_last5 oracle (daily_resample bars)
    ((daily_resample bars).length - 30 + i) (Nat.le_add_right _ _)
  rw [← hrow] at h5
  refine ⟨length_create_daily_summary_table oracle bars, ?_, ?_⟩
  · intro hfail
    by_cases hempty : load_intraday_data oracle row.day = []
    · rw [last5Stats, if_pos hempty] at h5
      exact ⟨congrArg Prod.fst h5, congrArg Prod.snd h5⟩
    · have hshort : (lastFive (load_intraday_data oracle row.day)).length < 2 :=
        hfail.resolve_left hempty
      rw [last5Stats, if_neg hempty] at h5
      simp only [if_neg (by omega : ¬ 2 ≤ (lastFive (load_intraday_data oracle row.day)).length)]
        at h5
      exact ⟨congrArg Prod.fst h5, congrArg Prod.snd h5⟩
  · intro hne h2
    rw [last5Stats, if_neg hne] at h5
    simp only [if_pos h2] at h5
    have h51 := congrArg Prod.fst h5
    have h52 := congrArg Prod.snd h5
    simp only at h51 h52
    exact ⟨h51, by rw [h52, h51]⟩

/-- Witness for C1: under `oracleDay0` the intraday load for day 1 of
`barsTwoDays` is empty, and the builder's row for that day indeed carries
the neutral defaults. -/
theorem daily_summary_per_day_degradation_w :
    rowDay1.last5Change = 0 ∧ rowDay1.last5Trend = Trend.flat :=
  (daily_summary_per_day_degradation oracleDay0 barsTwoDays 1 rowDay1 (by with_unfolding_all decide)).2.1
    (Or.inl (by with_unfolding_all decide))

/-- Claim C2 (counterexample): the builder's per-day retrieval is
`load_intraday_data`, not the Fallback Retriever.  Under `oracleDay0`,
day 1 of `barsTwoDays` has no intraday data of its own, but the Fallback
Retriever run on day 1 succeeds (stepping back to day 0, delta +3).  The
builder's row for day 1 nevertheless carries the neutral defaults, and the
builder's table differs from the table the claim describes. -/
theorem summary_skips_fallback_cex :
    ((create_daily_summary_table oracleDay0 barsTwoDays).getD 1 default).last5Change = 0 ∧
    ((create_daily_summary_table oracleDay0 barsTwoDays).getD 1 default).last5Trend
      = Trend.flat ∧
    load_intraday_data_robust oracleDay0 1 = some ([mkBar 0 10, mkBar 0 13], 0) ∧
    ((create_daily_summary_table_claim oracleDay0 barsTwoDays).getD 1 default).last5Change = 3 ∧
    create_daily_summary_table oracleDay0 barsTwoDays ≠
      create_daily_summary_table_claim oracleDay0 barsTwoDays := by
  with_unfolding_all decide

/-- Claim C2 (amended): for each of the most recent 30 resampled days
independently, the builder obtains that day's 1-minute bars by the plain
single-date loader (`load_intraday_data`, no backward-stepping fallback) on
that date, and on success with at least two samples in the last-5 window
computes the point delta as close of the last sample minus close of the
first sample of that window, classified with the same 3-way trend rule. -/
theorem summary_uses_single_date_loader (oracle : Int → List Bar) (bars : List Bar)
    (i : Nat) (row : SummaryRow)
    (h : (create_daily_summary_table oracle bars).get? i = some row) :
    (row.last5Change, row.last5Trend) = last5Stats (load_intraday_data oracle row.day) ∧
    (load_intraday_data oracle row.day ≠ [] →
      2 ≤ (lastFive (load_intraday_data oracle row.day)).length →
      row.last5Change =
          ((lastFive (load_intraday_data oracle row.day)).getLastD default).Close -
            ((lastFive (load_intraday_data oracle row.day)).headD default).Close ∧
        row.last5Trend =
          trendOfRat (((lastFive (load_intraday_data oracle row.day)).getLastD default).Close -
            ((lastFive (load_intraday_data oracle row.day)).headD default).Close)) := by
  obtain ⟨hj, hrow⟩ := create_daily_summary_table_get?_eq oracle bars i row h
  have h5 := summaryRowAt_last5 oracle (daily_resample bars)
    ((daily_resample bars).length - 30 + i) (Nat.le_add_right _ _)
  rw [← hrow] at h5
  refine ⟨h5, ?_⟩
  intro hne h2
  rw [last5Stats, if_neg hne] at h5
  simp only [if_pos h2] at h5
  exact ⟨congrArg Prod.fst h5, congrArg Prod.snd h5⟩

/-- Witness for the amended C2: the builder's row for day 0 of
`barsTwoDays` carries exactly the statistics the single-date loader
yields. -/
theorem summary_uses_single_date_loader_w :
    (rowDay0.last5Change, rowDay0.last5Trend)
      = last5Stats (load_intraday_data oracleDay0 rowDay0.day) :=
  (summary_uses_single_date_loader oracleDay0 barsTwoDays 0 rowDay0 (by with_unfolding_all decide)).1

/-! ### The fallback retriever -/

theorem robustGo_some (oracle : Int → List Bar) (orig : Int) :
    ∀ (r k : Nat) (s : List Bar) (a : Int), robustGo oracle orig k r = some (s, a) →
      ∃ j : Nat, j < r ∧ a = orig - (k + j) ∧ s = load_intraday_data oracle a ∧ s ≠ [] ∧
        ∀ j' : Nat, j' < j → load_intraday_data oracle (orig - (k + j')) = [] := by
  intro r
  induction r with
  | zero => intro k s a h; exact absurd h (by simp [robustGo])
  | succ r ih =>
    intro k s a h
    rw [robustGo] at h
    by_cases hload : load_intraday_data oracle (orig - k) = []
    · rw [if_pos hload] at h
      obtain ⟨j, hjr, haj, hsl, hsne, hall⟩ := ih (k + 1) s a h
      refine ⟨j + 1, by omega, by rw [haj]; congr 1; push_cast; ring, hsl, hsne, ?_⟩
      intro j' hj'
      match j' with
      | 0 => simpa using hload
      | j'' + 1 =>
        have := hall j'' (by omega)
        have harg : orig - ((k : Int) + (j'' + 1 : Nat)) = orig - ((k + 1 : Nat) + (j'' : Nat)) := by
          push_cast; ring
        rw [harg]
        exact this
    · rw [if_neg hload] at h
      simp only [Option.some.injEq, Prod.mk.injEq] at h
      refine ⟨0, by omega, ?_, ?_, ?_, fun j' hj' => absurd hj' (by omega)⟩
      · rw [← h.2]; simp
      · rw [← h.1, ← h.2]
      · rw [← h.1]; exact hload

theorem robustGo_none (oracle : Int → List Bar) (orig : Int) :
    ∀ (r k : Nat), robustGo oracle orig k r = none →
      ∀ j : Nat, j < r → load_intraday_data oracle (orig - (k + j)) = [] := by
  intro r
  induction r with
  | zero => intro k _ j hj; omega
  | succ r ih =>
    intro k h j hj
    rw [robustGo] at h
    by_cases hload : load_intraday_data oracle (orig - k) = []
    · rw [if_pos hload] at h
      match j with
      | 0 => simpa using hload
      | j'' + 1 =>
        have := ih (k + 1) h j'' (by omega)
        have harg : orig - ((k : Int) + (j'' + 1 : Nat)) = orig - ((k + 1 : Nat) + (j'' : Nat)) := by
          push_cast; ring
        rw [harg]
        exact this
    · rw [if_neg hload] at h
      exact absurd h (by simp)

/-- Claim C3: fallback retrieval first attempts the requested date, then
steps backward one calendar day at a time for at most `max_days_back = 7`
steps, stopping at the first non-empty series; it returns that series
together with the date actually used (the date its `st.info` report names,
or the requested date itself when the first attempt succeeds), that actual
date is at most the requested date and within 7 days of it, every date
strictly between the actual and the requested one was attempted and found
empty, and when every attempt in the window is empty the call reports no
result. -/
theorem fallback_retrieval_bounded (oracle : Int → List Bar) (d : Int) :
    (∀ s a, load_intraday_data_robust oracle d = some (s, a) →
       s = load_intraday_data oracle a ∧ s ≠ [] ∧ a ≤ d ∧ d - a ≤ 7 ∧
       ∀ e : Int, a < e → e ≤ d → load_intraday_data oracle e = []) ∧
    (load_intraday_data_robust oracle d = none →
       ∀ e : Int, d - 7 ≤ e → e ≤ d → load_intraday_data oracle e = []) := by
  constructor
  · intro s a h
    obtain ⟨j, hj8, haj, hsl, hsne, hall⟩ := robustGo_some oracle d 8 0 s a h
    have haj' : a = d - (j : Int) := by rw [haj]; push_cast; ring
    refine ⟨hsl, hsne, by omega, by omega, ?_⟩
    intro e hae hed
    have hj' : ((d - e).toNat : Int) = d - e := Int.toNat_of_nonneg (by omega)
    have hlt : (d - e).toNat < j := by omega
    have := hall (d - e).toNat hlt
    have harg : d - ((0 : Nat) + ((d - e).toNat : Int)) = e := by push_cast; omega
    rw [harg] at this
    exact this
  · intro h e he7 hed
    have hj' : ((d - e).toNat : Int) = d - e := Int.toNat_of_nonneg (by omega)
    have := robustGo_none oracle d 8 0 h (d - e).toNat (by omega)
    have harg : d - ((0 : Nat) + ((d - e).toNat : Int)) = e := by push_cast; omega
    rw [harg] at this
    exact this

/-- Witness for C3: a provider that only has data on day 8, requested for
day 10: the retriever returns the day-8 series with actual date 8, two
steps back and within the 7-day bound. -/
theorem fallback_retrieval_bounded_w :
    [mkBar 8 10] = load_intraday_data (fun d => if d = 8 then [mkBar 8 10] else []) 8 ∧
    ([mkBar 8 10] ≠ ([] : List Bar)) ∧ (8 : Int) ≤ 10 ∧ (10 : Int) - 8 ≤ 7 :=
  have h := (fallback_retrieval_bounded (fun d => if d = 8 then [mkBar 8 10] else []) 10).1
    [mkBar 8 10] 8 (by with_unfolding_all decide)
  ⟨h.1, h.2.1, h.2.2.1, h.2.2.2.1⟩

/-! ### The timezone normalizer -/

/-- Claim C4 (counterexample): the claim asks that, for every bar series,
an unresolvable target zone yield the input unchanged together with a
warning signal.  On an empty series the source returns before the zone is
ever consulted (`if data is None or data.empty: return data`), so with the
target zone unresolvable the empty series comes back unchanged but with no
warning signal. -/
theorem tz_empty_series_no_warning_cex :
    (convert_to_paris_time none ⟨none, [], []⟩).2 = false ∧
    (convert_to_paris_time none ⟨none, [], []⟩).1 = ⟨none, [], []⟩ := by
  with_unfolding_all decide

/-- Claim C4 (amended): for every nonempty bar series, the timezone
normalizer interprets timezone-naive timestamps as UTC (localizing to UTC
first) before converting to the target zone and converts already-zoned
timestamps directly; if the target zone cannot be resolved it returns the
input series unchanged together with a warning signal; the OHLCV payload is
never touched and the call never aborts; an empty series is returned
unchanged immediately, with no warning even when the zone is
unresolvable. -/
theorem tz_normalizer_behaviour (resolveParis : Option Int) (s : TzSeries) :
    (convert_to_paris_time resolveParis s).1.rows = s.rows ∧
    (s.rows = [] → convert_to_paris_time resolveParis s = (s, false)) ∧
    (s.rows ≠ [] → resolveParis = none → convert_to_paris_time resolveParis s = (s, true)) ∧
    (∀ off, s.rows ≠ [] → resolveParis = some off → s.tz = none →
       convert_to_paris_time resolveParis s = (tz_convert (tz_localize_utc s) off, false)) ∧
    (∀ off o, s.rows ≠ [] → resolveParis = some off → s.tz = some o →
       convert_to_paris_time resolveParis s = (tz_convert s off, false)) := by
  refine ⟨?_, ?_, ?_, ?_, ?_⟩
  · rw [convert_to_paris_time.eq_def]
    by_cases hrows : s.rows = []
    · rw [if_pos hrows]
    · rw [if_neg hrows]
      match resolveParis with
      | none => rfl
      | some off =>
        simp only
        by_cases htz : s.tz = none
        · rw [if_pos htz]; rfl
        · rw [if_neg htz]; rfl
  · intro hrows
    rw [convert_to_paris_time.eq_def, if_pos hrows]
  · intro hrows hres
    rw [convert_to_paris_time.eq_def, if_neg hrows, hres]
  · intro off hrows hres htz
    rw [convert_to_paris_time.eq_def, if_neg hrows, hres]
    simp only [if_pos htz]
  · intro off o hrows hres htz
    rw [convert_to_paris_time.eq_def, if_neg hrows, hres]
    simp only [htz]
    rw [if_neg (by simp)]

/-- Witness for the amended C4: a nonempty naive series under a resolvable
zone of offset 60 is localized to UTC and then converted (each reading
shifted by +60), with no warning; and under an unresolvable zone it comes
back unchanged with the warning signal. -/
theorem tz_normalizer_behaviour_w :
    convert_to_paris_time (some 60) ⟨none, [100, 200], [1, 2]⟩
      = (tz_convert (tz_localize_utc ⟨none, [100, 200], [1, 2]⟩) 60, false) ∧
    convert_to_paris_time none ⟨none, [100, 200], [1, 2]⟩
      = (⟨none, [100, 200], [1, 2]⟩, true) :=
  ⟨(tz_normalizer_behaviour (some 60) ⟨none, [100, 200], [1, 2]⟩).2.2.2.1 60
      (by with_unfolding_all decide) rfl rfl,
   (tz_normalizer_behaviour none ⟨none, [100, 200], [1, 2]⟩).2.2.1
      (by with_unfolding_all decide) rfl⟩

/-! ### The exponential mean and MACD -/

theorem length_ewmAux (β : ℚ) :
    ∀ (xs : List ℚ) (num den : ℚ), (ewmAux β num den xs).length = xs.length := by
  intro xs
  induction xs with
  | nil => intro num den; rfl
  | cons x rest ih => intro num den; simp only [ewmAux, List.length_cons, ih]

theorem length_ewmMean (span : Nat) (xs : List ℚ) : (ewmMean span xs).length = xs.length :=
  length_ewmAux _ xs 0 0

theorem getD_seriesSub (l1 l2 : List ℚ) (t : Nat) (h1 : t < l1.length) (h2 : t < l2.length) :
    (seriesSub l1 l2).getD t 0 = l1.getD t 0 - l2.getD t 0 := by
  induction l1 generalizing l2 t with
  | nil => simp at h1
  | cons a l ih =>
    cases l2 with
    | nil => simp at h2
    | cons b m =>
      cases t with
      | zero => rfl
      | succ t' =>
        simp only [seriesSub, List.zipWith_cons_cons, List.getD_cons_succ]
        exact ih m t' (by simpa using h1) (by simpa using h2)

/-- Claim C5: for every input frame and parameters, the MACD column equals
the fast exponential mean of the closes minus the slow one, the signal
column equals the `signal`-span exponential mean applied to the MACD column
itself, the histogram column is stored as the elementwise difference of
those two columns and at every position equals MACD minus signal exactly;
the statement quantifies over all `fast`, `slow`, `signal`, so no
`fast < slow` constraint is enforced by the computation. -/
theorem macd_columns_consistent (df : DataFrame) (fast slow signal : Nat) :
    (calculate_macd df fast slow signal).cols "MACD"
      = some (seriesSub (ewmMean fast (closeOf df)) (ewmMean slow (closeOf df))) ∧
    (calculate_macd df fast slow signal).cols "MACD_Signal"
      = some (ewmMean signal (seriesSub (ewmMean fast (closeOf df)) (ewmMean slow (closeOf df)))) ∧
    (calculate_macd df fast slow signal).cols "MACD_Histogram"
      = some (seriesSub (seriesSub (ewmMean fast (closeOf df)) (ewmMean slow (closeOf df)))
          (ewmMean signal (seriesSub (ewmMean fast (closeOf df)) (ewmMean slow (closeOf df))))) ∧
    ∀ t : Nat,
      t < (seriesSub (ewmMean fast (closeOf df)) (ewmMean slow (closeOf df))).length →
      (seriesSub (seriesSub (ewmMean fast (closeOf df)) (ewmMean slow (closeOf df)))
          (ewmMean signal (seriesSub (ewmMean fast (closeOf df)) (ewmMean slow (closeOf df))))).getD
          t 0
        = (seriesSub (ewmMean fast (closeOf df)) (ewmMean slow (closeOf df))).getD t 0 -
            (ewmMean signal
              (seriesSub (ewmMean fast (closeOf df)) (ewmMean slow (closeOf df)))).getD t 0 := by
  refine ⟨rfl, rfl, rfl, ?_⟩
  intro t ht
  exact getD_seriesSub _ _ t ht (by rw [length_ewmMean]; exact ht)

/-- Witness for C5: the three derived columns on a concrete three-row frame. -/
theorem macd_columns_consistent_w :
    (calculate_macd ⟨[0, 1, 2], fun n => if n = "Close" then some [1, 2, 4] else none⟩ 2 3 2).cols
        "MACD"
      = some (seriesSub
          (ewmMean 2 (closeOf ⟨[0, 1, 2], fun n => if n = "Close" then some [1, 2, 4] else none⟩))
          (ewmMean 3
            (closeOf ⟨[0, 1, 2], fun n => if n = "Close" then some [1, 2, 4] else none⟩))) :=
  (macd_columns_consistent ⟨[0, 1, 2], fun n => if n = "Close" then some [1, 2, 4] else none⟩
    2 3 2).1

/-- Claim C6 (counterexample): with span 2 (α = 2/3) on the close series
[0, 1], the source's `ewm(span=2).mean()` yields 3/4 at the second position
(pandas' default adjusted weighting), while seeding from the first value
and recursing `y_t = α·x_t + (1−α)·y_{t−1}` yields 2/3; the code's second
value does not satisfy the claimed recurrence at its own first value. -/
theorem ema_recurrence_cex :
    (ewmMean 2 [0, 1]).getD 1 0 = 3 / 4 ∧
    (emaRecSpec 2 [0, 1]).getD 1 0 = 2 / 3 ∧
    ewmMean 2 [0, 1] ≠ emaRecSpec 2 [0, 1] ∧
    (ewmMean 2 [0, 1]).getD 1 0
      ≠ 2 / (((2 : Nat) : ℚ) + 1) * 1
          + (1 - 2 / (((2 : Nat) : ℚ) + 1)) * (ewmMean 2 [0, 1]).getD 0 0 := by
  with_unfolding_all decide

theorem ewmAux_getD (β : ℚ) :
    ∀ (xs : List ℚ) (num den : ℚ) (t : Nat), t < xs.length →
      (ewmAux β num den xs).getD t 0 =
        (β ^ (t + 1) * num + ∑ i ∈ Finset.range (t + 1), β ^ i * xs.getD (t - i) 0) /
          (β ^ (t + 1) * den + ∑ i ∈ Finset.range (t + 1), β ^ i) := by
  intro xs
  induction xs with
  | nil => intro num den t ht; simp at ht
  | cons x rest ih =>
    intro num den t ht
    cases t with
    | zero =>
      simp [ewmAux, Finset.sum_range_one, pow_one]
    | succ t' =>
      have ht' : t' < rest.length := by simpa using ht
      have hrec := ih (β * num + x) (β * den + 1) t' ht'
      simp only [ewmAux, List.getD_cons_succ]
      rw [hrec]
      have hsum : ∑ i ∈ Finset.range (t' + 1), β ^ i * (x :: rest).getD (t' + 1 - i) 0
          = ∑ i ∈ Finset.range (t' + 1), β ^ i * rest.getD (t' - i) 0 := by
        refine Finset.sum_congr rfl ?_
        intro i hi
        have hi' : i < t' + 1 := Finset.mem_range.mp hi
        have : t' + 1 - i = (t' - i) + 1 := by omega
        rw [this, List.getD_cons_succ]
      congr 1
      · conv_rhs => rw [Finset.sum_range_succ]
        rw [hsum]
        simp only [Nat.sub_self, List.getD_cons_zero]
        ring
      · conv_rhs => rw [Finset.sum_range_succ]
        ring

theorem ewm_first_value (span : Nat) (x : ℚ) (rest : List ℚ) :
    (ewmMean span (x :: rest)).headD 0 = x := by
  simp [ewmMean, ewmAux]

/-- Claim C6 (amended): the source's EMA is pandas `ewm(span).mean()` with
the default adjusted weighting: writing α = 2/(span+1) and β = 1 − α, it is
seeded from the first available value — the first output equals the first
close, with no artificial zero-fill — and the value at every position `t`
is the β-weighted average of the closes so far, i.e. it satisfies
`y_t · Σ_{i≤t} β^i = Σ_{i≤t} β^i · x_{t−i}`, not the plain recurrence
`y_t = α·x_t + (1−α)·y_{t−1}`. -/
theorem ewm_adjusted_weighting (span t : Nat) (xs : List ℚ)
    (hspan : 1 ≤ span) (ht : t < xs.length) :
    (ewmMean span xs).length = xs.length ∧
    (ewmMean span xs).headD 0 = xs.headD 0 ∧
    (ewmMean span xs).getD t 0 * (∑ i ∈ Finset.range (t + 1), (1 - 2 / ((span : ℚ) + 1)) ^ i)
      = ∑ i ∈ Finset.range (t + 1), (1 - 2 / ((span : ℚ) + 1)) ^ i * xs.getD (t - i) 0 := by
  have hspan1 : (0 : ℚ) < (span : ℚ) + 1 := by positivity
  have hβ : 0 ≤ 1 - 2 / ((span : ℚ) + 1) := by
    have h2 : 2 / ((span : ℚ) + 1) ≤ 1 := by
      rw [div_le_one hspan1]
      have : (1 : ℚ) ≤ (span : ℚ) := by exact_mod_cast hspan
      linarith
    linarith
  have hden : (0 : ℚ) < ∑ i ∈ Finset.range (t + 1), (1 - 2 / ((span : ℚ) + 1)) ^ i := by
    have h0 : (1 - 2 / ((span : ℚ) + 1)) ^ 0
        ≤ ∑ i ∈ Finset.range (t + 1), (1 - 2 / ((span : ℚ) + 1)) ^ i :=
      Finset.single_le_sum (f := fun i => (1 - 2 / ((span : ℚ) + 1)) ^ i)
        (fun i _ => pow_nonneg hβ i) (Finset.mem_range.mpr (by omega))
    rw [pow_zero] at h0
    linarith
  refine ⟨length_ewmMean span xs, ?_, ?_⟩
  · cases xs with
    | nil => simp at ht
    | cons x rest => rw [ewm_first_value]; rfl
  · rw [ewmMean, ewmAux_getD _ xs 0 0 t ht]
    simp only [mul_zero, zero_add]
    exact div_mul_cancel₀ _ (ne_of_gt hden)

/-- Witness for the amended C6: span 2, closes [1, 2], position 1. -/
theorem ewm_adjusted_weighting_w :
    (ewmMean 2 [1, 2]).length = ([1, 2] : List ℚ).length ∧
    (ewmMean 2 [1, 2]).headD 0 = ([1, 2] : List ℚ).headD 0 ∧
    (ewmMean 2 [1, 2]).getD 1 0
        * (∑ i ∈ Finset.range (1 + 1), (1 - 2 / (((2 : Nat) : ℚ) + 1)) ^ i)
      = ∑ i ∈ Finset.range (1 + 1),
          (1 - 2 / (((2 : Nat) : ℚ) + 1)) ^ i * ([1, 2] : List ℚ).getD (1 - i) 0 :=
  ewm_adjusted_weighting 2 1 [1, 2] (by norm_num) (by norm_num)

/-! ### Daily resampling -/

theorem sum_map_filter_add (l : List Bar) (p : Bar → Bool) (g : Bar → ℚ) :
    ((l.filter p).map g).sum + ((l.filter (fun b => ! p b)).map g).sum = (l.map g).sum := by
  induction l with
  | nil => simp
  | cons a m ih =>
    cases hp : p a <;> simp [List.filter_cons, hp] <;> linarith [ih]

theorem sum_map_fiber (g : Bar → ℚ) :
    ∀ (days : List Int), days.Nodup → ∀ (l : List Bar), (∀ b ∈ l, b.day ∈ days) →
      (days.map (fun d => ((l.filter (fun b => b.day = d)).map g).sum)).sum = (l.map g).sum := by
  intro days
  induction days with
  | nil =>
    intro _ l hl
    cases l with
    | nil => simp
    | cons b m => exact absurd (hl b (List.mem_cons_self b m)) (List.not_mem_nil _)
  | cons d ds ih =>
    intro hnd l hl
    have hd_notin : d ∉ ds := (List.nodup_cons.mp hnd).1
    have hds : ds.Nodup := (List.nodup_cons.mp hnd).2
    have hmem' : ∀ b ∈ l.filter (fun b => ! decide (b.day = d)), b.day ∈ ds := by
      intro b hb
      have hbl : b ∈ l := List.mem_of_mem_filter hb
      have hbne : b.day ≠ d := by simpa using (List.mem_filter.mp hb).2
      rcases List.mem_cons.mp (hl b hbl) with h | h
      · exact absurd h hbne
      · exact h
    have hfilter_eq : ∀ d' ∈ ds,
        l.filter (fun b => b.day = d')
          = (l.filter (fun b => ! decide (b.day = d))).filter (fun b => b.day = d') := by
      intro d' hd'
      rw [List.filter_filter]
      refine List.filter_congr ?_
      intro b _
      by_cases hb' : b.day = d'
      · have hdd : ¬ d' = d := fun hc => hd_notin (hc ▸ hd')
        simp [hb', hdd]
      · simp [hb']
    have hmap : ds.map (fun d' => ((l.filter (fun b => b.day = d')).map g).sum)
        = ds.map (fun d' =>
            (((l.filter (fun b => ! decide (b.day = d))).filter
              (fun b => b.day = d')).map g).sum) := by
      refine List.map_congr ?_
      intro d' hd'
      rw [hfilter_eq d' hd']
    calc ((d :: ds).map (fun d' => ((l.filter (fun b => b.day = d')).map g).sum)).sum
        = ((l.filter (fun b => b.day = d)).map g).sum +
            (ds.map (fun d' => ((l.filter (fun b => b.day = d')).map g).sum)).sum := by
          simp
      _ = ((l.filter (fun b => b.day = d)).map g).sum +
            ((l.filter (fun b => ! decide (b.day = d))).map g).sum := by
          rw [hmap, ih hds _ hmem']
      _ = (l.map g).sum := sum_map_filter_add l _ g

theorem foldl_max_le (l : List ℚ) : ∀ a : ℚ, a ≤ l.foldl max a ∧ ∀ x ∈ l, x ≤ l.foldl max a := by
  induction l with
  | nil => intro a; exact ⟨le_refl a, by simp⟩
  | cons y m ih =>
    intro a
    refine ⟨le_trans (le_max_left a y) (ih (max a y)).1, ?_⟩
    intro x hx
    rcases List.mem_cons.mp hx with rfl | hx
    · exact le_trans (le_max_right a x) (ih (max a x)).1
    · exact (ih (max a y)).2 x hx

theorem foldl_max_mem (l : List ℚ) : ∀ a : ℚ, l.foldl max a = a ∨ l.foldl max a ∈ l := by
  induction l with
  | nil => intro a; exact Or.inl rfl
  | cons y m ih =>
    intro a
    rw [List.foldl_cons]
    rcases ih (max a y) with h | h
    · rcases max_choice a y with hm | hm
      · exact Or.inl (by rw [h, hm])
      · exact Or.inr (by rw [h, hm]; exact List.mem_cons_self y m)
    · exact Or.inr (List.mem_cons_of_mem y h)

theorem foldl_min_le (l : List ℚ) : ∀ a : ℚ, l.foldl min a ≤ a ∧ ∀ x ∈ l, l.foldl min a ≤ x := by
  induction l with
  | nil => intro a; exact ⟨le_refl a, by simp⟩
  | cons y m ih =>
    intro a
    refine ⟨le_trans (ih (min a y)).1 (min_le_left a y), ?_⟩
    intro x hx
    rcases List.mem_cons.mp hx with rfl | hx
    · exact le_trans (ih (min a x)).1 (min_le_right a x)
    · exact (ih (min a y)).2 x hx

theorem foldl_min_mem (l : List ℚ) : ∀ a : ℚ, l.foldl min a = a ∨ l.foldl min a ∈ l := by
  induction l with
  | nil => intro a; exact Or.inl rfl
  | cons y m ih =>
    intro a
    rw [List.foldl_cons]
    rcases ih (min a y) with h | h
    · rcases min_choice a y with hm | hm
      · exact Or.inl (by rw [h, hm])
      · exact Or.inr (by rw [h, hm]; exact List.mem_cons_self y m)
    · exact Or.inr (List.mem_cons_of_mem y h)

theorem headD_mem (l : List Bar) (h : l ≠ []) : l.headD default ∈ l := by
  cases l with
  | nil => exact absurd rfl h
  | cons a m => exact List.mem_cons_self a m

theorem getLastD_mem (l : List Bar) : ∀ d : Bar, l ≠ [] → l.getLastD d ∈ l := by
  induction l with
  | nil => intro d h; exact absurd rfl h
  | cons a m ih =>
    intro d _
    rw [List.getLastD_cons]
    cases m with
    | nil => simp
    | cons b k => exact List.mem_cons_of_mem a (ih a (by simp))

theorem aggDay_fields (d : Int) (g : List Bar) (hg : g ≠ []) :
    (aggDay d g).Open = (g.headD default).Open ∧
    (aggDay d g).Close = (g.getLastD default).Close ∧
    (aggDay d g).Volume = (g.map (·.Volume)).sum ∧
    (∀ b ∈ g, b.High ≤ (aggDay d g).High ∧ (aggDay d g).Low ≤ b.Low) ∧
    (aggDay d g).High ∈ g.map (·.High) ∧
    (aggDay d g).Low ∈ g.map (·.Low) := by
  refine ⟨rfl, rfl, rfl, ?_, ?_, ?_⟩
  · intro b hb
    constructor
    · exact (foldl_max_le (g.map (·.High)) ((g.headD default).High)).2 b.High
        (List.mem_map.mpr ⟨b, hb, rfl⟩)
    · exact (foldl_min_le (g.map (·.Low)) ((g.headD default).Low)).2 b.Low
        (List.mem_map.mpr ⟨b, hb, rfl⟩)
  · show (g.map (·.High)).foldl max ((g.headD default).High) ∈ g.map (·.High)
    rcases foldl_max_mem (g.map (·.High)) ((g.headD default).High) with h | h
    · rw [h]; exact List.mem_map.mpr ⟨g.headD default, headD_mem g hg, rfl⟩
    · exact h
  · show (g.map (·.Low)).foldl min ((g.headD default).Low) ∈ g.map (·.Low)
    rcases foldl_min_mem (g.map (·.Low)) ((g.headD default).Low) with h | h
    · rw [h]; exact List.mem_map.mpr ⟨g.headD default, headD_mem g hg, rfl⟩
    · exact h

theorem daily_resample_group_ne_nil (bars : List Bar) (d : Int)
    (hd : d ∈ (bars.map (·.day)).dedup) : bars.filter (fun b => b.day = d) ≠ [] := by
  rcases List.mem_map.mp (List.mem_dedup.mp hd) with ⟨b, hb, hbd⟩
  exact List.ne_nil_of_mem (List.mem_filter.mpr ⟨hb, by simp [hbd]⟩)

/-- Claim C7: daily resampling produces, for each calendar day that has
samples, a row with open = first sample of the day, close = last sample,
high an upper bound of (and attained by) the day's highs, low a lower
bound of (and attained by) the day's lows, and volume the sum of the day's
volumes; days with no samples yield no row (every row's day has a nonempty
group); consequently the sum of the daily volumes equals the sum of the
input bars' volumes. -/
theorem daily_resample_spec (bars : List Bar) :
    ((daily_resample bars).map (·.Volume)).sum = (bars.map (·.Volume)).sum ∧
    ∀ r ∈ daily_resample bars,
      bars.filter (fun b => b.day = r.day) ≠ [] ∧
      r.Open = ((bars.filter (fun b => b.day = r.day)).headD default).Open ∧
      r.Close = ((bars.filter (fun b => b.day = r.day)).getLastD default).Close ∧
      r.Volume = ((bars.filter (fun b => b.day = r.day)).map (·.Volume)).sum ∧
      (∀ b ∈ bars.filter (fun b => b.day = r.day), b.High ≤ r.High ∧ r.Low ≤ b.Low) ∧
      r.High ∈ (bars.filter (fun b => b.day = r.day)).map (·.High) ∧
      r.Low ∈ (bars.filter (fun b => b.day = r.day)).map (·.Low) := by
  constructor
  · rw [daily_resample, List.map_map]
    exact sum_map_fiber (·.Volume) _ (List.nodup_dedup _) bars
      (fun b hb => List.mem_dedup.mpr (List.mem_map.mpr ⟨b, hb, rfl⟩))
  · intro r hr
    rw [daily_resample] at hr
    rcases List.mem_map.mp hr with ⟨d, hd, rfl⟩
    have hdayeq : (aggDay d (bars.filter (fun b => b.day = d))).day = d := rfl
    simp only [hdayeq]
    have hne := daily_resample_group_ne_nil bars d hd
    obtain ⟨h1, h2, h3, h4, h5, h6⟩ := aggDay_fields d (bars.filter (fun b => b.day = d)) hne
    exact ⟨hne, h1, h2, h3, h4, h5, h6⟩

/-- Witness for C7: volume conservation on the concrete two-day series. -/
theorem daily_resample_spec_w :
    ((daily_resample barsTwoDays).map (·.Volume)).sum = (barsTwoDays.map (·.Volume)).sum :=
  (daily_resample_spec barsTwoDays).1

/-! ### Daily percent change and trend tags -/

theorem daily_resample_close_pos (bars : List Bar) (hpos : ∀ b ∈ bars, 0 < b.Close)
    (r : DailyBar) (hr : r ∈ daily_resample bars) : 0 < r.Close := by
  rw [daily_resample] at hr
  rcases List.mem_map.mp hr with ⟨d, hd, rfl⟩
  have hne := daily_resample_group_ne_nil bars d hd
  show 0 < ((bars.filter (fun b => b.day = d)).getLastD default).Close
  exact hpos _ (List.mem_of_mem_filter (getLastD_mem (bars.filter (fun b => b.day = d)) default hne))

theorem getD_mem_daily (daily : List DailyBar) (j : Nat) (hj : j < daily.length) :
    daily.getD j default ∈ daily := by
  rw [List.getD_eq_getElem daily default hj]
  exact List.getElem_mem hj

/-- Claim C8 (counterexample): the claim requires the first resampled day —
whose percent change is undefined — to be excluded from
percent-change-dependent output or marked undefined rather than assigned
one of the three trend tags.  On a one-day series the builder emits that
first day with an undefined (NaN) percent change, yet tags it flat: NaN
fails both comparisons of the classifying lambda, which then falls through
to the flat arrow. -/
theorem first_day_tagged_flat_cex :
    (create_daily_summary_table (fun _ => []) barsOneDay).length = 1 ∧
    ((create_daily_summary_table (fun _ => []) barsOneDay).getD 0 default).dailyChange = none ∧
    ((create_daily_summary_table (fun _ => []) barsOneDay).getD 0 default).dailyTrend
      = Trend.flat := by
  with_unfolding_all decide

/-- Claim C8 (amended): for every emitted row of the resampled daily
series, the daily percent change equals `(close_t/close_{t-1} − 1)×100`
when a prior day exists (given positive closes), and the trend tag follows
the exact 3-way rule — positive change up, negative down, exact zero its
own flat category; the first day's percent change is undefined (NaN), but
its trend tag is nevertheless the flat arrow (the classifier sends the
undefined value to the flat branch) rather than the day being excluded or
left untagged. -/
theorem daily_change_formula_and_trend (oracle : Int → List Bar) (bars : List Bar)
    (i : Nat) (row : SummaryRow)
    (hpos : ∀ b ∈ bars, 0 < b.Close)
    (h : (create_daily_summary_table oracle bars).get? i = some row) :
    ((daily_resample bars).length - 30 + i = 0 →
        row.dailyChange = none ∧ row.dailyTrend = Trend.flat) ∧
    ((daily_resample bars).length - 30 + i ≠ 0 →
        row.dailyChange = some
          ((((daily_resample bars).getD ((daily_resample bars).length - 30 + i) default).Close /
              ((daily_resample bars).getD
                ((daily_resample bars).length - 30 + i - 1) default).Close - 1) * 100)) ∧
    (∀ x : ℚ, row.dailyChange = some x →
        (0 < x → row.dailyTrend = Trend.up) ∧
        (x < 0 → row.dailyTrend = Trend.down) ∧
        (x = 0 → row.dailyTrend = Trend.flat)) := by
  obtain ⟨hj, hrow⟩ := create_daily_summary_table_get?_eq oracle bars i row h
  have hch : row.dailyChange
      = pctChange100 (daily_resample bars) ((daily_resample bars).length - 30 + i) := by
    rw [hrow]; rfl
  have htr : row.dailyTrend = trendOfChange row.dailyChange := by
    rw [hrow]; rfl
  refine ⟨?_, ?_, ?_⟩
  · intro h0
    rw [hch, htr, hch]
    simp only [pctChange100]
    rw [if_pos h0]
    exact ⟨rfl, rfl⟩
  · intro h0
    rw [hch]
    simp only [pctChange100]
    rw [if_neg h0]
    congr 1
    have hjm1 : (daily_resample bars).length - 30 + i - 1 < (daily_resample bars).length := by
      omega
    have hp : 0 < ((daily_resample bars).getD
        ((daily_resample bars).length - 30 + i - 1) default).Close :=
      daily_resample_close_pos bars hpos _ (getD_mem_daily (daily_resample bars) _ hjm1)
    rw [sub_div, div_self (ne_of_gt hp)]
  · intro x hx
    rw [htr, hx]
    refine ⟨?_, ?_, ?_⟩
    · intro h0
      simp [trendOfChange, trendOfRat, h0]
    · intro h0
      have hng : ¬ x > 0 := by linarith
      simp [trendOfChange, trendOfRat, hng, h0]
    · intro h0
      subst h0
      simp [trendOfChange, trendOfRat]

/-- Witness for the amended C8: the day-1 row of the concrete two-day
series carries the percent-change formula's value. -/
theorem daily_change_formula_and_trend_w :
    rowDay1.dailyChange = some
      ((((daily_resample barsTwoDays).getD
            ((daily_resample barsTwoDays).length - 30 + 1) default).Close /
          ((daily_resample barsTwoDays).getD
            ((daily_resample barsTwoDays).length - 30 + 1 - 1) default).Close - 1) * 100) :=
  (daily_change_formula_and_trend oracleDay0 barsTwoDays 1 rowDay1
      (by with_unfolding_all decide) (by with_unfolding_all decide)).2.1
    (by with_unfolding_all decide)

/-! ### RSI (modelled from the spec) -/

theorem rsi_getD (window : Nat) (xs : List ℚ) (t : Nat) (ht : t < xs.length) :
    (rsi window xs).getD t none = rsiAt window xs t := by
  rw [rsi, List.getD_eq_get?, List.get?_map, List.get?_range ht]
  rfl

theorem rsi_getD_oob (window : Nat) (xs : List ℚ) (t : Nat) (ht : ¬ t < xs.length) :
    (rsi window xs).getD t none = none := by
  rw [rsi, List.getD_eq_get?,
    List.get?_eq_none.mpr (by simp only [List.length_map, List.length_range]; omega)]
  rfl

theorem avgGain_nonneg (window : Nat) (xs : List ℚ) (t : Nat) : 0 ≤ avgGain window xs t := by
  apply div_nonneg _ (Nat.cast_nonneg window)
  apply List.sum_nonneg
  intro a ha
  rcases List.mem_map.mp ha with ⟨d, _, rfl⟩
  exact le_max_right d 0

theorem avgLoss_nonneg (window : Nat) (xs : List ℚ) (t : Nat) : 0 ≤ avgLoss window xs t := by
  apply div_nonneg _ (Nat.cast_nonneg window)
  apply List.sum_nonneg
  intro a ha
  rcases List.mem_map.mp ha with ⟨d, _, rfl⟩
  exact le_max_right (-d) 0

/-- Claim C9: the RSI computation (modelled from the spec, there being no
RSI in `src/`) produces no value — without erring — at positions with fewer
than `window` deltas, every value it does produce lies in [0, 100], and
when the rolling loss is zero while the rolling gain is positive the value
is exactly 100. -/
theorem rsi_spec (window : Nat) (xs : List ℚ) (t : Nat) :
    (t < window → (rsi window xs).getD t none = none) ∧
    (∀ v : ℚ, (rsi window xs).getD t none = some v → 0 ≤ v ∧ v ≤ 100) ∧
    (window ≤ t → t < xs.length → avgLoss window xs t = 0 → 0 < avgGain window xs t →
      (rsi window xs).getD t none = some 100) := by
  refine ⟨?_, ?_, ?_⟩
  · intro htw
    by_cases htlen : t < xs.length
    · rw [rsi_getD window xs t htlen, rsiAt, if_neg (by omega)]
    · exact rsi_getD_oob window xs t htlen
  · intro v hv
    by_cases htlen : t < xs.length
    · rw [rsi_getD window xs t htlen, rsiAt] at hv
      by_cases hwt : window ≤ t
      · rw [if_pos hwt] at hv
        by_cases hl : avgLoss window xs t = 0
        · rw [if_pos hl] at hv
          by_cases hg : avgGain window xs t > 0
          · rw [if_pos hg] at hv
            have hv' := Option.some.inj hv
            rw [← hv']
            norm_num
          · rw [if_neg hg] at hv
            exact absurd hv (by simp)
        · rw [if_neg hl] at hv
          have hv' := Option.some.inj hv
          have hg0 := avgGain_nonneg window xs t
          have hl0 := avgLoss_nonneg window xs t
          have hlpos : 0 < avgLoss window xs t := lt_of_le_of_ne hl0 (Ne.symm hl)
          have hgl : 0 ≤ avgGain window xs t / avgLoss window xs t :=
            div_nonneg hg0 (le_of_lt hlpos)
          have h1 : (0 : ℚ) < 1 + avgGain window xs t / avgLoss window xs t := by linarith
          have hq1 : 0 < 100 / (1 + avgGain window xs t / avgLoss window xs t) := by positivity
          have hq2 : 100 / (1 + avgGain window xs t / avgLoss window xs t) ≤ 100 :=
            div_le_self (by norm_num) (by linarith)
          rw [← hv']
          constructor <;> linarith
      · rw [if_neg hwt] at hv
        exact absurd hv (by simp)
    · rw [rsi_getD_oob window xs t htlen] at hv
      exact absurd hv (by simp)
  · intro hwt htlen hl hg
    rw [rsi_getD window xs t htlen, rsiAt, if_pos hwt, if_pos hl, if_pos hg]

/-- Witness for C9: on the closes [10, 11, 10.5, 12] with window 2 the
position with only one delta has no value and the defined value 75 lies in
range; on the monotone closes [1, 2, 3] the zero-loss positive-gain
position resolves to exactly 100. -/
theorem rsi_spec_w :
    (rsi 2 [10, 11, 10.5, 12]).getD 1 none = none ∧
    ((0 : ℚ) ≤ 75 ∧ (75 : ℚ) ≤ 100) ∧
    (rsi 2 [1, 2, 3]).getD 2 none = some 100 :=
  ⟨(rsi_spec 2 [10, 11, 10.5, 12] 1).1 (by norm_num),
   (rsi_spec 2 [10, 11, 10.5, 12] 3).2.1 75 (by with_unfolding_all decide),
   (rsi_spec 2 [1, 2, 3] 2).2.2 (by norm_num) (by norm_num) (by with_unfolding_all decide)
     (by with_unfolding_all decide)⟩

/-! ### Frame effects of the indicator functions -/

theorem ema_col_data (p : Nat) :
    ("EMA_" ++ toString p).data = 'E' :: 'M' :: 'A' :: '_' :: (toString p).data := by
  have h4 : "EMA_".data = ['E', 'M', 'A', '_'] := by decide
  rw [String.data_append, h4]
  rfl

theorem ema_col_ne (p : Nat) (c : String) (hc : c.data.take 4 ≠ ['E', 'M', 'A', '_']) :
    ("EMA_" ++ toString p) ≠ c := by
  intro h
  apply hc
  rw [← h, ema_col_data]
  rfl

/-- Claim C10: `calculate_macd` and `calculate_ema` return the frame they
were handed with only their derived columns written — the index is
unchanged, every column other than the derived ones (in particular the
original Open, High, Low, Close and Volume columns) is left exactly as it
was, and the derived columns are present in the returned frame. -/
theorem indicator_frame_effects (df : DataFrame) (fast slow signal period : Nat) :
    (calculate_macd df fast slow signal).index = df.index ∧
    (calculate_ema df period).index = df.index ∧
    (∀ name : String, name ≠ "MACD" → name ≠ "MACD_Signal" → name ≠ "MACD_Histogram" →
        (calculate_macd df fast slow signal).cols name = df.cols name) ∧
    ((calculate_macd df fast slow signal).cols "Open" = df.cols "Open" ∧
      (calculate_macd df fast slow signal).cols "High" = df.cols "High" ∧
      (calculate_macd df fast slow signal).cols "Low" = df.cols "Low" ∧
      (calculate_macd df fast slow signal).cols "Close" = df.cols "Close" ∧
      (calculate_macd df fast slow signal).cols "Volume" = df.cols "Volume") ∧
    (∀ name : String, name ≠ "EMA_" ++ toString period →
        (calculate_ema df period).cols name = df.cols name) ∧
    ((calculate_ema df period).cols "Open" = df.cols "Open" ∧
      (calculate_ema df period).cols "High" = df.cols "High" ∧
      (calculate_ema df period).cols "Low" = df.cols "Low" ∧
      (calculate_ema df period).cols "Close" = df.cols "Close" ∧
      (calculate_ema df period).cols "Volume" = df.cols "Volume") ∧
    (calculate_ema df period).cols ("EMA_" ++ toString period)
      = some (ewmMean period (closeOf df)) ∧
    ((calculate_macd df fast slow signal).cols "MACD").isSome = true ∧
    ((calculate_macd df fast slow signal).cols "MACD_Signal").isSome = true ∧
    ((calculate_macd df fast slow signal).cols "MACD_Histogram").isSome = true := by
  have hmacd : ∀ name : String, name ≠ "MACD" → name ≠ "MACD_Signal" →
      name ≠ "MACD_Histogram" →
      (calculate_macd df fast slow signal).cols name = df.cols name := by
    intro name h1 h2 h3
    simp only [calculate_macd, setCol]
    rw [if_neg h3, if_neg h2, if_neg h1]
  have hema : ∀ name : String, name ≠ "EMA_" ++ toString period →
      (calculate_ema df period).cols name = df.cols name := by
    intro name hne
    simp only [calculate_ema, setCol]
    rw [if_neg hne]
  refine ⟨rfl, rfl, hmacd, ?_, hema, ?_, ?_, rfl, rfl, rfl⟩
  · exact ⟨hmacd "Open" (by decide) (by decide) (by decide),
      hmacd "High" (by decide) (by decide) (by decide),
      hmacd "Low" (by decide) (by decide) (by decide),
      hmacd "Close" (by decide) (by decide) (by decide),
      hmacd "Volume" (by decide) (by decide) (by decide)⟩
  · exact ⟨hema "Open" (Ne.symm (ema_col_ne period "Open" (by decide))),
      hema "High" (Ne.symm (ema_col_ne period "High" (by decide))),
      hema "Low" (Ne.symm (ema_col_ne period "Low" (by decide))),
      hema "Close" (Ne.symm (ema_col_ne period "Close" (by decide))),
      hema "Volume" (Ne.symm (ema_col_ne period "Volume" (by decide)))⟩
  · simp [calculate_ema, setCol]

/-- Witness for C10: on a concrete one-row frame, `calculate_ema` leaves
the close column untouched. -/
theorem indicator_frame_effects_w :
    (calculate_ema ⟨[0], fun n => if n = "Close" then some [5] else none⟩ 200).cols "Close"
      = (⟨[0], fun n => if n = "Close" then some [5] else none⟩ : DataFrame).cols "Close" :=
  (indicator_frame_effects ⟨[0], fun n => if n = "Close" then some [5] else none⟩
      12 26 9 200).2.2.2.2.2.1.2.2.2.1

end SpxAnalysis
